import Mathlib

/-!
Verification of the core logic of the ai-instagram-organizer repository:
the adaptive rate limiters with circuit breakers (LlamaRateLimiter and
GeminiRateLimiter in ai_instagram_organizer.py), the perceptual-hash
duplicate clustering (filter_similar_images), the contextual grouping and
representative selection (filter_contextually_similar_images,
calculate_contextual_similarity, select_best_from_context_group), and the
score-record parsing defaults (analyze_single_image_gemini_direct,
analyze_batch_with_gemini).

The Python code is shallowly embedded: each stateful method becomes an
explicit state-passing function, wall-clock time becomes an explicit
rational parameter, and floats become rationals.
-/

namespace Organizer

/-! ## Circuit breaker state machine

Models the circuit-breaker portion of LlamaRateLimiter and
GeminiRateLimiter (the two classes share this logic verbatim; only the
configured constants differ). The Python strings CLOSED, OPEN and
HALF_OPEN become the constructors below.
-/

inductive CircuitState where
  | closed
  | opened
  | halfOpen
deriving DecidableEq, Repr

structure BreakerConfig where
  failure_threshold : Nat
  recovery_timeout : ℚ
  half_open_max_calls : Nat
  initial_delay : ℚ
  max_delay : ℚ
  multiplier : ℚ
deriving DecidableEq, Repr

/-- The circuit-breaker fields of the limiter object: circuit_state,
failure_count, last_failure_time, half_open_calls and current_delay. -/
structure GovernorState where
  circuit : CircuitState
  failure_count : Nat
  last_failure_time : ℚ
  half_open_calls : Nat
  current_delay : ℚ
deriving DecidableEq, Repr

/-- State right after the limiter constructor runs: circuit CLOSED,
failure_count 0, last_failure_time 0, half_open_calls 0,
current_delay = initial_delay. -/
def initGovernor (cfg : BreakerConfig) : GovernorState :=
  { circuit := .closed
    failure_count := 0
    last_failure_time := 0
    half_open_calls := 0
    current_delay := cfg.initial_delay }

/-- LlamaRateLimiter.record_success.  In HALF_OPEN, count the call and close
the circuit once half_open_max_calls successes accrue; in CLOSED, decrement
failure_count by one (floored at zero) and relax current_delay. -/
def record_success (cfg : BreakerConfig) (s : GovernorState) : GovernorState :=
  match s.circuit with
  | .halfOpen =>
      let k := s.half_open_calls + 1
      if cfg.half_open_max_calls ≤ k then
        { s with half_open_calls := k, circuit := .closed, failure_count := 0,
                 current_delay := cfg.initial_delay }
      else
        { s with half_open_calls := k }
  | .closed =>
      if 0 < s.failure_count then
        { s with failure_count := s.failure_count - 1,
                 current_delay := max cfg.initial_delay (s.current_delay / cfg.multiplier) }
      else s
  | .opened => s

/-- LlamaRateLimiter.record_failure at wall-clock time now: increment
failure_count, stamp last_failure_time, grow current_delay; a failure in
HALF_OPEN reopens the circuit, and in any other state the circuit is OPEN
once failure_count reaches failure_threshold. -/
def record_failure (cfg : BreakerConfig) (now : ℚ) (s : GovernorState) : GovernorState :=
  let bumped : GovernorState :=
    { s with failure_count := s.failure_count + 1
             last_failure_time := now
             current_delay := min cfg.max_delay (s.current_delay * cfg.multiplier) }
  match s.circuit with
  | .halfOpen => { bumped with circuit := .opened }
  | _ =>
      if cfg.failure_threshold ≤ bumped.failure_count then
        { bumped with circuit := .opened }
      else bumped

/-- LlamaRateLimiter.is_circuit_open checked at time now.  Lazily moves
OPEN to HALF_OPEN once strictly more than recovery_timeout has elapsed
since the last failure; returns the boolean the method returns together
with the (possibly mutated) state. -/
def is_circuit_open_at (cfg : BreakerConfig) (now : ℚ) (s : GovernorState) :
    Bool × GovernorState :=
  match s.circuit with
  | .opened =>
      if cfg.recovery_timeout < now - s.last_failure_time then
        (false, { s with circuit := .halfOpen, half_open_calls := 0 })
      else (true, s)
  | _ => (false, s)

/-- Outcome of the circuit-breaker check at the top of acquire. -/
inductive AcquireOutcome where
  | proceeded
  | raised
deriving DecidableEq, Repr

/-- The circuit-breaker prologue of LlamaRateLimiter.acquire (lines
597 to 608): check is_circuit_open at time t1; if open, sleep for
recovery_timeout - (t1 - last_failure_time) (the sleep really takes that
long plus overshoot, since time.sleep never wakes early), then re-check;
raise exactly when the re-check still reports the circuit open. -/
def acquireCircuit (cfg : BreakerConfig) (t1 overshoot : ℚ) (s : GovernorState) :
    AcquireOutcome × GovernorState :=
  let r1 := is_circuit_open_at cfg t1 s
  if r1.1 then
    let wait := cfg.recovery_timeout - (t1 - r1.2.last_failure_time)
    let t2 := if 0 < wait then t1 + wait + overshoot else t1
    let r2 := is_circuit_open_at cfg t2 r1.2
    (if r2.1 then .raised else .proceeded, r2.2)
  else (.proceeded, r1.2)

/-- Run a sequence of release(success) outcomes through the circuit
breaker, all at wall-clock time now (true = success, false = failure). -/
def runReleases (cfg : BreakerConfig) (now : ℚ) (s : GovernorState) :
    List Bool → GovernorState
  | [] => s
  | b :: rest =>
      runReleases cfg now
        (if b then record_success cfg s else record_failure cfg now s) rest

/-- Default circuit configuration of LlamaRateLimiter: failure_threshold 5,
recovery_timeout 30, half_open_max_calls 3, initial_delay 1.0,
max_delay 60.0, multiplier 2.0. -/
def llamaBreakerDefaults : BreakerConfig :=
  { failure_threshold := 5
    recovery_timeout := 30
    half_open_max_calls := 3
    initial_delay := 1
    max_delay := 60
    multiplier := 2 }

/-- Default circuit configuration of GeminiRateLimiter: failure_threshold 3,
recovery_timeout 60, half_open_max_calls 2, initial_delay 2.0,
max_delay 120.0, multiplier 2.5. -/
def geminiBreakerDefaults : BreakerConfig :=
  { failure_threshold := 3
    recovery_timeout := 60
    half_open_max_calls := 2
    initial_delay := 2
    max_delay := 120
    multiplier := 2.5 }

/-- Longest run of consecutive failures (false entries) in an outcome
sequence, counted from each position. -/
def leadingFailures : List Bool → Nat
  | false :: rest => leadingFailures rest + 1
  | _ => 0

def maxFailureRun : List Bool → Nat
  | [] => 0
  | b :: rest => max (leadingFailures (b :: rest)) (maxFailureRun rest)

/-! ## Adaptive throttling

Models the adaptive throttle_factor recomputation inside
LlamaRateLimiter.release and GeminiRateLimiter.release.  The rolling error
rate and the size of the trailing request window are inputs here (the code
derives them from timestamped deques); the update rule itself is embedded
verbatim.
-/

/-- The throttle_factor update in LlamaRateLimiter.release: only adjusts
when more than 10 requests fall in the trailing 5 minutes; error rate above
15 percent multiplies by 0.8 (floored at 0.3), above 5 percent by 0.9
(floored at 0.5), below 2 percent by 1.02 (capped at 1.0). -/
def llamaThrottleUpdate (errorRate : ℚ) (totalRecent : Nat) (t : ℚ) : ℚ :=
  if 10 < totalRecent then
    if 0.15 < errorRate then max 0.3 (t * 0.8)
    else if 0.05 < errorRate then max 0.5 (t * 0.9)
    else if errorRate < 0.02 then min 1 (t * 1.02)
    else t
  else t

/-- The throttle_factor update in GeminiRateLimiter.release: adjusts with
more than 5 recent requests; error rate above 10 percent multiplies by 0.6
(floored at 0.2), above 5 percent by 0.8 (floored at 0.4), below 1 percent
by 1.01 (capped at 0.8). -/
def geminiThrottleUpdate (errorRate : ℚ) (totalRecent : Nat) (t : ℚ) : ℚ :=
  if 5 < totalRecent then
    if 0.1 < errorRate then max 0.2 (t * 0.6)
    else if 0.05 < errorRate then max 0.4 (t * 0.8)
    else if errorRate < 0.01 then min 0.8 (t * 1.01)
    else t
  else t

/-- Fold a sequence of release observations (error rate, trailing request
count) through a throttle update rule. -/
def runThrottle (upd : ℚ → Nat → ℚ → ℚ) (t : ℚ) : List (ℚ × Nat) → ℚ
  | [] => t
  | (e, n) :: rest => runThrottle upd (upd e n t) rest

/-- Hard floor of the Llama throttle factor (the lowest clamp constant in
LlamaRateLimiter.release). -/
def llamaMinFactor : ℚ := 0.3

/-- Hard floor of the Gemini throttle factor (the lowest clamp constant in
GeminiRateLimiter.release). -/
def geminiMinFactor : ℚ := 0.2

/-! ## Optimal batch size -/

/-- LlamaRateLimiter.get_optimal_batch_size, with the configured base
batch size (config default 2), the adaptive_rate_limiting flag, the
circuit state and the throttle factor as explicit inputs. -/
def llama_get_optimal_batch_size (adaptive : Bool) (base : Nat)
    (circuit : CircuitState) (t : ℚ) : Nat :=
  if adaptive then
    if circuit = .opened then 1
    else if t < 0.8 then max 1 (base / 2)
    else if 0.95 < t ∧ circuit = .closed then min 4 (base * 2)
    else base
  else base

/-- GeminiRateLimiter.get_optimal_batch_size. -/
def gemini_get_optimal_batch_size (circuit : CircuitState) (t : ℚ) : Nat :=
  if circuit = .opened then 1
  else if t < 0.5 then 1
  else if t < 0.7 then 2
  else 3

/-- Governor state of the default Llama limiter after five consecutive
failures, all recorded at wall-clock time 0. -/
def llamaStateAfterFiveFailures : GovernorState :=
  runReleases llamaBreakerDefaults 0 (initGovernor llamaBreakerDefaults)
    [false, false, false, false, false]

/-! ## Concurrency slots

The concurrency cap of both limiters: a plain threading.Semaphore (not a
BoundedSemaphore) constructed with max_concurrent permits, acquired at the
end of acquire (which then increments concurrent_requests) and released at
the end of release (which first decrements concurrent_requests).  A caller
holds a slot between its acquire and its release.  The interleaving of any
number of workers is a sequence of atomic steps.  Crucially, release() can
run in a caller that holds no slot: in
analyze_single_image_gemini_with_limiter the except block calls
release(success=False) even when the exception was raised by acquire()
itself before it touched the semaphore, and the Llama call paths release
once on HTTP success and then release again in a later except handler when
parsing the response raises.  Since the semaphore is unbounded, each such
release adds a permit beyond max_concurrent.  The releaseUnpaired step
models these paths; the unpaired field counts how many have occurred.
-/

structure SemState where
  semValue : Nat
  holders : Nat
  unpaired : Nat
deriving DecidableEq, Repr

inductive SemStep : SemState → SemState → Prop
  | acquire (s : SemState) : 0 < s.semValue →
      SemStep s { semValue := s.semValue - 1, holders := s.holders + 1,
                  unpaired := s.unpaired }
  | release (s : SemState) : 0 < s.holders →
      SemStep s { semValue := s.semValue + 1, holders := s.holders - 1,
                  unpaired := s.unpaired }
  | releaseUnpaired (s : SemState) :
      SemStep s { semValue := s.semValue + 1, holders := s.holders,
                  unpaired := s.unpaired + 1 }

/-- States reachable from the freshly constructed limiter, whose semaphore
holds max_concurrent permits, with no holders and no unpaired release yet. -/
def SemReachable (maxConcurrent : Nat) (s : SemState) : Prop :=
  Relation.ReflTransGen SemStep
    { semValue := maxConcurrent, holders := 0, unpaired := 0 } s

/-! ## Duplicate clustering (filter_similar_images)

An imagehash is a fixed-length bit vector and the difference of two hashes
is their Hamming distance.  The grouping loop of filter_similar_images
walks the hashed images in input order; each not-yet-processed image seeds
a group and absorbs every later not-yet-processed image whose distance to
the seed is at most the threshold.  The recursion below consumes the
still-unprocessed suffix; the fuel argument (instantiated with the list
length) only makes the recursion structural.
-/

def hammingDistance (a b : List Bool) : Nat :=
  (List.zipWith xor a b).count true

/-- An image path paired with its perceptual hash. -/
abbrev ImageFp := String × List Bool

structure DupCluster where
  seed : ImageFp
  absorbed : List ImageFp
deriving DecidableEq, Repr

def DupCluster.members (c : DupCluster) : List ImageFp :=
  c.seed :: c.absorbed

def buildDupClustersFuel (threshold : Nat) : Nat → List ImageFp → List DupCluster
  | _, [] => []
  | 0, _ :: _ => []
  | fuel + 1, x :: rest =>
      let isNear : ImageFp → Bool := fun y => hammingDistance x.2 y.2 ≤ threshold
      { seed := x, absorbed := rest.filter isNear } ::
        buildDupClustersFuel threshold fuel (rest.filter fun y => !(isNear y))

def buildDupClusters (threshold : Nat) (l : List ImageFp) : List DupCluster :=
  buildDupClustersFuel threshold l.length l

/-- The output of filter_similar_images: one representative (the seed) per
duplicate cluster, in input order, followed by the images whose hashing
failed (they are passed through, never dropped). -/
def filter_similar_images (threshold : Nat) (hashed : List ImageFp)
    (failed : List String) : List String :=
  (buildDupClusters threshold hashed).map (fun c => c.seed.1) ++ failed

/-- Concrete 16-bit fingerprint whose first k bits are set. -/
def fpBits (k : Nat) : List Bool :=
  (List.range 16).map (fun i => decide (i < k))

def fpA : ImageFp := ("img_a", fpBits 0)
def fpB : ImageFp := ("img_b", fpBits 1)
def fpC : ImageFp := ("img_c", fpBits 2)
def fpD : ImageFp := ("img_d", fpBits 10)

/-! ## Contextual similarity and grouping -/

/-- The analysis mapping attached to a photo; every key the similarity and
selection code reads may be absent, as in the parsed JSON dict. -/
structure Analysis where
  category : Option String
  subcategory : Option String
  location : Option String
  mood : Option String
  people_present : Option String
  technical_score : Option ℚ
  engagement_score : Option ℚ
  composite_score : Option ℚ
deriving DecidableEq, Repr

structure Photo where
  analysis : Analysis
  enhanced_composite : Option ℚ
deriving DecidableEq, Repr

/-- The set of whitespace-separated words of a string, as in
python str.split(). -/
def textWords (s : String) : Finset String :=
  ((s.split Char.isWhitespace).filter (fun w => w ≠ "")).toFinset

/-- calculate_text_similarity: Jaccard similarity of the word sets, zero
when either text or word set is empty. -/
def calculate_text_similarity (text1 text2 : String) : ℚ :=
  if text1 = "" ∨ text2 = "" then 0
  else
    let words1 := textWords text1
    let words2 := textWords text2
    if words1 = ∅ ∨ words2 = ∅ then 0
    else ((words1 ∩ words2).card : ℚ) / ((words1 ∪ words2).card : ℚ)

/-- calculate_contextual_similarity: weighted sum of category (0.25),
subcategory (0.15), lower-cased location word overlap (0.30), mood (0.20)
and people count (0.10) agreement; absent keys compare as python None does
and people_present defaults to the string 0. -/
def calculate_contextual_similarity (photo1 photo2 : Photo) : ℚ :=
  let a1 := photo1.analysis
  let a2 := photo2.analysis
  let category_score : ℚ := if a1.category = a2.category then 1 else 0
  let subcategory_score : ℚ := if a1.subcategory = a2.subcategory then 1 else 0
  let location_score :=
    calculate_text_similarity ((a1.location.getD "").toLower) ((a2.location.getD "").toLower)
  let mood_score : ℚ := if a1.mood = a2.mood then 1 else 0
  let people_score : ℚ :=
    if a1.people_present.getD "0" = a2.people_present.getD "0" then 1 else 0
  category_score * 0.25 + subcategory_score * 0.15 + location_score * 0.30 +
    mood_score * 0.20 + people_score * 0.10

/-- The grouping loop of filter_contextually_similar_images: photos are
walked in input order, each unclaimed photo seeds a group and absorbs every
later unclaimed photo whose similarity to the seed reaches the threshold.
Fuel as in buildDupClustersFuel. -/
def buildContextGroupsFuel (threshold : ℚ) : Nat → List Photo → List (List Photo)
  | _, [] => []
  | 0, _ :: _ => []
  | fuel + 1, x :: rest =>
      let similar : Photo → Bool := fun y => threshold ≤ calculate_contextual_similarity x y
      (x :: rest.filter similar) ::
        buildContextGroupsFuel threshold fuel (rest.filter fun y => !(similar y))

def buildContextGroups (threshold : ℚ) (l : List Photo) : List (List Photo) :=
  buildContextGroupsFuel threshold l.length l

/-! ## Representative selection (select_best_from_context_group) -/

/-- get_composite_score helper inside select_best_from_context_group:
prefer the enhanced composite score, else the analysis one, else 0. -/
def get_composite_score (photo : Photo) : ℚ :=
  match photo.enhanced_composite with
  | some c => c
  | none => photo.analysis.composite_score.getD 0

/-- python max(group, key=...): the first element attaining the maximal
key; none only for the empty list (where python max raises). -/
def pyMaxBy (key : Photo → ℚ) : List Photo → Option Photo
  | [] => none
  | x :: xs => some (xs.foldl (fun best y => if key best < key y then y else best) x)

/-- Average similarity of a candidate to every other member of the group
(zero when there are no others), as computed in the most_unique branch. -/
def avgSimToOthers (group : List Photo) (candidate : Photo) : ℚ :=
  let sims := (group.filter (fun other => other ≠ candidate)).map
    (fun other => calculate_contextual_similarity candidate other)
  if sims.length = 0 then 0 else sims.sum / (sims.length : ℚ)

/-- One iteration of the most_unique scan: keep the candidate with the
strictly lowest average similarity seen so far (none plays the role of the
initial infinite lowest_avg_similarity). -/
def mostUniqueStep (group : List Photo) (acc : Option (Photo × ℚ)) (candidate : Photo) :
    Option (Photo × ℚ) :=
  let avg := avgSimToOthers group candidate
  match acc with
  | none => some (candidate, avg)
  | some (b, low) => if avg < low then some (candidate, avg) else some (b, low)

/-- The most_unique branch of select_best_from_context_group, including
the final best_photo-or-first fallback. -/
def mostUniquePick (group : List Photo) : Option Photo :=
  match group.foldl (mostUniqueStep group) none with
  | some (b, _) => some b
  | none => group.head?

/-- select_best_from_context_group, parameterised by the configured
contextual_selection_strategy string; any unrecognised name falls through
to the final highest-composite-score default. -/
def select_best_from_context_group (strategy : String) (group : List Photo) :
    Option Photo :=
  if strategy = "highest_score" then pyMaxBy get_composite_score group
  else if strategy = "most_unique" then mostUniquePick group
  else if strategy = "best_technical" then
    pyMaxBy (fun p => p.analysis.technical_score.getD 0) group
  else if strategy = "best_engagement" then
    pyMaxBy (fun p => p.analysis.engagement_score.getD 0) group
  else pyMaxBy get_composite_score group

/-- Two photos agreeing only on category: pairwise similarity 0.25 in each
direction, distinct composite scores. -/
def photoLowScore : Photo :=
  { analysis :=
      { category := some "food", subcategory := some "plated", location := none,
        mood := some "warm", people_present := some "1",
        technical_score := none, engagement_score := none, composite_score := some 1 }
    enhanced_composite := none }

def photoHighScore : Photo :=
  { analysis :=
      { category := some "food", subcategory := some "buffet", location := none,
        mood := some "festive", people_present := some "2",
        technical_score := none, engagement_score := none, composite_score := some 9 }
    enhanced_composite := none }

/-! ## Score-record parsing defaults -/

/-- The fixed weights of the composite score, shared by
analyze_single_image_gemini_direct and analyze_batch_with_gemini. -/
def score_weights : List (String × ℚ) :=
  [("technical_score", 0.15), ("visual_appeal", 0.25), ("engagement_score", 0.30),
   ("uniqueness", 0.20), ("story_potential", 0.10)]

/-- composite_score as computed from a parsed response mapping: each
weighted field read with analysis.get(field, 5.0). -/
def composite_score_of (response : String → Option ℚ) : ℚ :=
  (score_weights.map (fun fw => (response fw.1).getD 5 * fw.2)).sum

/-- The batch path first fills the required fields with 5.0 when absent
(analyze_batch_with_gemini lines 1981 to 1984). -/
def fill_required (response : String → Option ℚ) : String → Option ℚ :=
  fun f =>
    if (f = "technical_score" ∨ f = "visual_appeal" ∨ f = "engagement_score"
        ∨ f = "uniqueness") ∧ response f = none
    then some 5 else response f

/-- A concrete malformed response: every score field present except
visual_appeal. -/
def responseMissingVisualAppeal : String → Option ℚ :=
  fun f =>
    if f = "technical_score" then some 7
    else if f = "engagement_score" then some 6
    else if f = "uniqueness" then some 4
    else if f = "story_potential" then some 8
    else none

theorem llamaThrottleUpdate_mem (e : ℚ) (n : Nat) (t : ℚ)
    (h1 : llamaMinFactor ≤ t) (h2 : t ≤ 1) :
    llamaMinFactor ≤ llamaThrottleUpdate e n t ∧ llamaThrottleUpdate e n t ≤ 1 := by
  rw [llamaMinFactor] at *
  rw [llamaThrottleUpdate]
  split_ifs
  · exact ⟨le_max_left _ _, max_le (by norm_num) (by nlinarith)⟩
  · exact ⟨le_trans (by norm_num) (le_max_left _ _), max_le (by norm_num) (by nlinarith)⟩
  · exact ⟨le_min (by norm_num) (by nlinarith), min_le_left _ _⟩
  · exact ⟨h1, h2⟩
  · exact ⟨h1, h2⟩

theorem geminiThrottleUpdate_mem (e : ℚ) (n : Nat) (t : ℚ)
    (h1 : geminiMinFactor ≤ t) (h2 : t ≤ 0.8) :
    geminiMinFactor ≤ geminiThrottleUpdate e n t ∧ geminiThrottleUpdate e n t ≤ 0.8 := by
  rw [geminiMinFactor] at *
  rw [geminiThrottleUpdate]
  split_ifs
  · exact ⟨le_max_left _ _, max_le (by norm_num) (by nlinarith)⟩
  · exact ⟨le_trans (by norm_num) (le_max_left _ _), max_le (by norm_num) (by nlinarith)⟩
  · exact ⟨le_min (by norm_num) (by nlinarith), min_le_left _ _⟩
  · exact ⟨h1, h2⟩
  · exact ⟨h1, h2⟩

theorem runThrottle_invariant (P : ℚ → Prop) (upd : ℚ → Nat → ℚ → ℚ)
    (hstep : ∀ e n t, P t → P (upd e n t)) :
    ∀ (inputs : List (ℚ × Nat)) (t : ℚ), P t → P (runThrottle upd t inputs)
  | [], _, h => h
  | (e, n) :: rest, t, h =>
      runThrottle_invariant P upd hstep rest (upd e n t) (hstep e n t h)

/-- C3.  Under every sequence of release outcomes, the Llama throttle
factor starting from its initial value 1.0 stays within
[llamaMinFactor, 1.0], and the Gemini throttle factor starting from its
initial value 0.7 stays within [geminiMinFactor, 1.0].  Since the inputs
range over all prefixes, the bound holds at every step. -/
theorem C3_throttle_factor_stays_in_range (inputs : List (ℚ × Nat)) :
    (llamaMinFactor ≤ runThrottle llamaThrottleUpdate 1 inputs
      ∧ runThrottle llamaThrottleUpdate 1 inputs ≤ 1)
    ∧ (geminiMinFactor ≤ runThrottle geminiThrottleUpdate 0.7 inputs
      ∧ runThrottle geminiThrottleUpdate 0.7 inputs ≤ 1) := by
  have hl := runThrottle_invariant
    (fun t => llamaMinFactor ≤ t ∧ t ≤ 1) llamaThrottleUpdate
    (fun e n t h => llamaThrottleUpdate_mem e n t h.1 h.2)
    inputs 1 ⟨by rw [llamaMinFactor]; norm_num, le_refl 1⟩
  have hg := runThrottle_invariant
    (fun t => geminiMinFactor ≤ t ∧ t ≤ 0.8) geminiThrottleUpdate
    (fun e n t h => geminiThrottleUpdate_mem e n t h.1 h.2)
    inputs 0.7 ⟨by rw [geminiMinFactor]; norm_num, by norm_num⟩
  exact ⟨hl, hg.1, le_trans hg.2 (by norm_num)⟩

/-- C8, counterexample.  With adaptive_rate_limiting disabled (a valid
configuration) the Llama limiter returns its configured base batch size
even while the circuit is OPEN, so the return value is not 1. -/
theorem C8_counterexample :
    llama_get_optimal_batch_size false 2 .opened 1 = 2
    ∧ llama_get_optimal_batch_size false 2 .opened 1 ≠ 1 := by
  refine ⟨by decide, by decide⟩

/-- C8, amended.  With adaptive rate limiting enabled, the Llama limiter
returns 1 whenever the circuit is OPEN, and — when the configured base
batch size lies between 1 and 4 — it is non-decreasing in the throttle
factor at any fixed circuit state and bounded by 4.  The Gemini limiter
unconditionally returns 1 when OPEN, is non-decreasing in the throttle
factor, and is bounded by the hard maximum 3. -/
theorem C8_batch_size_amended (base : Nat) (c : CircuitState) (t t2 : ℚ)
    (hb1 : 1 ≤ base) (hb4 : base ≤ 4) (ht : t ≤ t2) :
    llama_get_optimal_batch_size true base .opened t = 1
    ∧ gemini_get_optimal_batch_size .opened t = 1
    ∧ llama_get_optimal_batch_size true base c t
        ≤ llama_get_optimal_batch_size true base c t2
    ∧ llama_get_optimal_batch_size true base c t ≤ 4
    ∧ gemini_get_optimal_batch_size c t ≤ gemini_get_optimal_batch_size c t2
    ∧ gemini_get_optimal_batch_size c t ≤ 3 := by
  refine ⟨by simp [llama_get_optimal_batch_size], by simp [gemini_get_optimal_batch_size],
    ?_, ?_, ?_, ?_⟩
  · by_cases hc : c = .opened
    · simp [llama_get_optimal_batch_size, hc]
    · by_cases h8 : t < 0.8
      · by_cases h8t : t2 < 0.8
        · simp [llama_get_optimal_batch_size, hc, h8, h8t]
        · by_cases h95 : 0.95 < t2 ∧ c = .closed
          · simp only [llama_get_optimal_batch_size, hc, h8, h8t, h95,
              if_true, if_false, if_pos, if_neg, not_false_iff]
            simp
            omega
          · simp only [llama_get_optimal_batch_size, hc, h8, h8t, h95,
              if_true, if_false, if_pos, if_neg, not_false_iff]
            simp
            omega
      · have h8t : ¬ t2 < 0.8 := fun h => h8 (lt_of_le_of_lt ht h)
        by_cases h95 : 0.95 < t ∧ c = .closed
        · have h95t : 0.95 < t2 ∧ c = .closed := ⟨lt_of_lt_of_le h95.1 ht, h95.2⟩
          simp [llama_get_optimal_batch_size, hc, h8, h8t, h95, h95t]
        · by_cases h95t : 0.95 < t2 ∧ c = .closed
          · have hnt : ¬ 0.95 < t := fun hgt => h95 ⟨hgt, h95t.2⟩
            simp only [llama_get_optimal_batch_size, hc, h8, h8t, hnt, h95t]
            simp
            omega
          · simp [llama_get_optimal_batch_size, hc, h8, h8t, h95, h95t]
  · rw [llama_get_optimal_batch_size]
    split_ifs <;> omega
  · rw [gemini_get_optimal_batch_size, gemini_get_optimal_batch_size]
    split_ifs <;> first | omega | linarith
  · rw [gemini_get_optimal_batch_size]
    split_ifs <;> omega

/-- Witness for C8_batch_size_amended at the default base batch size 2. -/
theorem C8_witness :
    llama_get_optimal_batch_size true 2 .closed 0.5
      ≤ llama_get_optimal_batch_size true 2 .closed 0.9 :=
  (C8_batch_size_amended 2 .closed 0.5 0.9 (by norm_num) (by norm_num)
    (by norm_num)).2.2.1

/-- C1, counterexample.  With failure_threshold 5, the outcome sequence
fail, fail, fail, fail, success, fail, fail contains at most 4 consecutive
failures (so the claim says the circuit must still be CLOSED), yet the code
ends with the circuit OPEN: record_success merely decrements failure_count
by one instead of resetting it, so the count 4 drops to 3 and two further
failures reach the threshold. -/
theorem C1_counterexample :
    (runReleases llamaBreakerDefaults 0 (initGovernor llamaBreakerDefaults)
      [false, false, false, false, true, false, false]).circuit = .opened
    ∧ maxFailureRun [false, false, false, false, true, false, false] = 4
    ∧ maxFailureRun [false, false, false, false, true, false, false]
        < llamaBreakerDefaults.failure_threshold := by
  refine ⟨rfl, by decide, by decide⟩

/-- C1, amended.  The circuit transitions CLOSED to OPEN exactly when
failure_count reaches failure_threshold, where failure_count is incremented
on each failure and decremented by one (floored at zero, never reset) on
each success in the CLOSED state; a success never opens the circuit.  In
particular, with threshold 5, five consecutive failures from a fresh
limiter open the circuit and four failures followed by a success leave it
CLOSED — but the accrued failures need not be consecutive. -/
theorem C1_closed_to_open_iff_count_reaches_threshold
    (cfg : BreakerConfig) (now : ℚ) (s : GovernorState)
    (hs : s.circuit = .closed) :
    ((record_failure cfg now s).circuit = .opened
      ↔ cfg.failure_threshold ≤ s.failure_count + 1)
    ∧ (record_success cfg s).circuit = .closed
    ∧ (record_success cfg s).failure_count = s.failure_count - 1
    ∧ (runReleases llamaBreakerDefaults 0 (initGovernor llamaBreakerDefaults)
        [false, false, false, false, false]).circuit = .opened
    ∧ (runReleases llamaBreakerDefaults 0 (initGovernor llamaBreakerDefaults)
        [false, false, false, false, true]).circuit = .closed := by
  obtain ⟨c, fc, lf, hoc, cd⟩ := s
  cases hs
  refine ⟨?_, ?_, ?_, by decide, by decide⟩
  · simp only [record_failure]
    split
    · simp_all
    · constructor
      · intro h
        simp_all
      · intro h
        omega
  · simp only [record_success]
    split <;> rfl
  · simp only [record_success]
    split
    · rfl
    · simp
      omega

/-- Witness for C1_closed_to_open_iff_count_reaches_threshold at the fresh
Llama limiter state. -/
theorem C1_witness :
    (record_success llamaBreakerDefaults (initGovernor llamaBreakerDefaults)).circuit
      = .closed :=
  (C1_closed_to_open_iff_count_reaches_threshold llamaBreakerDefaults 0
    (initGovernor llamaBreakerDefaults) rfl).2.1

theorem semStep_sum {a b : SemState} (h : SemStep a b) (m : Nat)
    (ha : a.semValue + a.holders = m + a.unpaired) :
    b.semValue + b.holders = m + b.unpaired := by
  cases h with
  | acquire hu =>
      show a.semValue - 1 + (a.holders + 1) = m + a.unpaired
      omega
  | release hu =>
      show a.semValue + 1 + (a.holders - 1) = m + a.unpaired
      omega
  | releaseUnpaired =>
      show a.semValue + 1 + a.holders = m + (a.unpaired + 1)
      omega

theorem semReachable_sum (m : Nat) (s : SemState) (h : SemReachable m s) :
    s.semValue + s.holders = m + s.unpaired := by
  induction h with
  | refl => rfl
  | tail _ step ih => exact semStep_sum step m ih

/-- With max_concurrent 1, one unpaired release (the except path that
releases after acquire itself raised) inflates the semaphore to two
permits; two subsequent acquire steps then hold two slots at once. -/
theorem semReachable_two_holders :
    SemReachable 1 { semValue := 0, holders := 2, unpaired := 1 } := by
  have h1 : SemStep { semValue := 1, holders := 0, unpaired := 0 }
      { semValue := 2, holders := 0, unpaired := 1 } :=
    SemStep.releaseUnpaired _
  have h2 : SemStep { semValue := 2, holders := 0, unpaired := 1 }
      { semValue := 1, holders := 1, unpaired := 1 } :=
    SemStep.acquire _ (by norm_num)
  have h3 : SemStep { semValue := 1, holders := 1, unpaired := 1 }
      { semValue := 0, holders := 2, unpaired := 1 } :=
    SemStep.acquire _ (by norm_num)
  exact Relation.ReflTransGen.trans (Relation.ReflTransGen.single h1)
    (Relation.ReflTransGen.trans (Relation.ReflTransGen.single h2)
      (Relation.ReflTransGen.single h3))

/-- C2, counterexample.  The claimed bound fails on the program: release()
is reachable in callers that hold no slot (the Gemini wrapper's except
block releases after acquire() raised before touching the semaphore, and
the Llama call paths release on HTTP success and again in an except
handler when response parsing raises), and the semaphore is unbounded, so
one such release lets two callers hold slots simultaneously with
max_concurrent = 1. -/
theorem C2_counterexample :
    SemReachable 1 { semValue := 0, holders := 2, unpaired := 1 }
    ∧ 1 < ({ semValue := 0, holders := 2, unpaired := 1 } : SemState).holders :=
  ⟨semReachable_two_holders, by norm_num⟩

/-- C2, amended.  In every interleaving, the number of callers
simultaneously holding a slot is bounded by max_concurrent plus the number
of unpaired release() calls performed so far; in particular, in executions
where every release is paired with a prior successful acquire (the
protocol the spec prescribes), the bound max_concurrent holds. -/
theorem C2_holders_bounded_amended (maxConcurrent : Nat) (s : SemState)
    (h : SemReachable maxConcurrent s) :
    s.holders ≤ maxConcurrent + s.unpaired
    ∧ (s.unpaired = 0 → s.holders ≤ maxConcurrent) := by
  have := semReachable_sum maxConcurrent s h
  omega

/-- Witness for C2_holders_bounded_amended at the concrete state reached
after one unpaired release and two acquisitions. -/
theorem C2_witness :
    ({ semValue := 0, holders := 2, unpaired := 1 } : SemState).holders
      ≤ 1 + ({ semValue := 0, holders := 2, unpaired := 1 } : SemState).unpaired :=
  (C2_holders_bounded_amended 1 { semValue := 0, holders := 2, unpaired := 1 }
    semReachable_two_holders).1

theorem fill_required_getD (response : String → Option ℚ) (f : String) :
    (fill_required response f).getD 5 = (response f).getD 5 := by
  rw [fill_required]
  split
  · rename_i hcond
    rw [hcond.2]
    rfl
  · rfl

/-- C7.  A parsed response missing the visual_appeal field scores with 5.0
substituted for it: composite_score is still the fixed weighted sum with
weights 0.15, 0.25, 0.30, 0.20, 0.10, every other field also read with
default 5.0.  The embedding of the scoring step is a total function, so
parsing such a response never raises; the batch path, which first fills
the required fields explicitly, computes the identical composite score. -/
theorem C7_missing_visual_appeal_defaults (response : String → Option ℚ)
    (h : response "visual_appeal" = none) :
    composite_score_of response
      = (response "technical_score").getD 5 * 0.15 + (5 : ℚ) * 0.25
        + (response "engagement_score").getD 5 * 0.30
        + (response "uniqueness").getD 5 * 0.20
        + (response "story_potential").getD 5 * 0.10
    ∧ composite_score_of (fill_required response) = composite_score_of response := by
  constructor
  · simp [composite_score_of, score_weights, h]
    ring
  · simp [composite_score_of, score_weights, fill_required_getD]

/-- Witness for C7_missing_visual_appeal_defaults at a concrete response
missing visual_appeal. -/
theorem C7_witness :
    composite_score_of responseMissingVisualAppeal
      = (responseMissingVisualAppeal "technical_score").getD 5 * 0.15 + (5 : ℚ) * 0.25
        + (responseMissingVisualAppeal "engagement_score").getD 5 * 0.30
        + (responseMissingVisualAppeal "uniqueness").getD 5 * 0.20
        + (responseMissingVisualAppeal "story_potential").getD 5 * 0.10 :=
  (C7_missing_visual_appeal_defaults responseMissingVisualAppeal rfl).1

theorem buildDupClustersFuel_flatten_perm (t : Nat) :
    ∀ (fuel : Nat) (l : List ImageFp), l.length ≤ fuel →
      List.Perm ((buildDupClustersFuel t fuel l).map DupCluster.members).flatten l
  | _, [], _ => by simp [buildDupClustersFuel]
  | 0, x :: rest, h => by simp at h
  | fuel + 1, x :: rest, h => by
      simp only [buildDupClustersFuel, List.map, List.flatten, DupCluster.members,
        List.cons_append]
      have hlen :
          (rest.filter fun y => !(decide (hammingDistance x.2 y.2 ≤ t))).length ≤ fuel := by
        have := rest.length_filter_le (fun y => !(decide (hammingDistance x.2 y.2 ≤ t)))
        simp at h
        omega
      have ih := buildDupClustersFuel_flatten_perm t fuel _ hlen
      exact List.Perm.cons x ((ih.append_left _).trans (List.filter_append_perm _ rest))

theorem buildDupClustersFuel_mem_of (t : Nat) (fuel : Nat) (l : List ImageFp)
    (h : l.length ≤ fuel) (c : DupCluster) (hc : c ∈ buildDupClustersFuel t fuel l)
    (m : ImageFp) (hm : m ∈ c.members) : m ∈ l :=
  (buildDupClustersFuel_flatten_perm t fuel l h).mem_iff.mp
    (List.mem_flatten.mpr ⟨c.members, List.mem_map_of_mem _ hc, hm⟩)

theorem buildDupClustersFuel_absorbed_le (t : Nat) :
    ∀ (fuel : Nat) (l : List ImageFp) (c : DupCluster),
      c ∈ buildDupClustersFuel t fuel l →
      ∀ m ∈ c.absorbed, hammingDistance c.seed.2 m.2 ≤ t
  | 0, [], c, hc => by simp [buildDupClustersFuel] at hc
  | 0, _ :: _, c, hc => by simp [buildDupClustersFuel] at hc
  | _ + 1, [], c, hc => by simp [buildDupClustersFuel] at hc
  | fuel + 1, x :: rest, c, hc => by
      intro m hm
      simp only [buildDupClustersFuel, List.mem_cons] at hc
      rcases hc with rfl | hc
      · have := (List.mem_filter.mp hm).2
        simpa using this
      · exact buildDupClustersFuel_absorbed_le t fuel _ c hc m hm

theorem buildDupClustersFuel_pairwise_far (t : Nat) :
    ∀ (fuel : Nat) (l : List ImageFp), l.length ≤ fuel →
      (buildDupClustersFuel t fuel l).Pairwise
        (fun c c2 => ∀ m ∈ c2.members, t < hammingDistance c.seed.2 m.2)
  | _, [], _ => by simp [buildDupClustersFuel]
  | 0, x :: rest, h => by simp at h
  | fuel + 1, x :: rest, h => by
      simp only [buildDupClustersFuel]
      have hlen :
          (rest.filter fun y => !(decide (hammingDistance x.2 y.2 ≤ t))).length ≤ fuel := by
        have := rest.length_filter_le (fun y => !(decide (hammingDistance x.2 y.2 ≤ t)))
        simp at h
        omega
      refine List.Pairwise.cons ?_ (buildDupClustersFuel_pairwise_far t fuel _ hlen)
      intro c2 hc2 m hm
      have hmem : m ∈ rest.filter (fun y => !(decide (hammingDistance x.2 y.2 ≤ t))) :=
        buildDupClustersFuel_mem_of t fuel _ hlen c2 hc2 m hm
      have := (List.mem_filter.mp hmem).2
      simp at this
      show t < hammingDistance x.2 m.2
      omega

/-- C4.  In filter_similar_images, every image absorbed into a cluster is
within the threshold of that cluster seed; every image left for a later
cluster (member or seed) is strictly beyond the threshold from every
earlier seed, so while a seed is active all still-unclaimed images within
the threshold are absorbed by it; and the concrete scenario of
fingerprints at Hamming distances 0, 1, 2 and 10 from the seed with
threshold 3 yields exactly two clusters: the three near images together
and the distance-10 image alone. -/
theorem C4_seed_absorption_rule (t : Nat) (l : List ImageFp) :
    (∀ c ∈ buildDupClusters t l, ∀ m ∈ c.absorbed, hammingDistance c.seed.2 m.2 ≤ t)
    ∧ (buildDupClusters t l).Pairwise
        (fun c c2 => ∀ m ∈ c2.members, t < hammingDistance c.seed.2 m.2)
    ∧ buildDupClusters 3 [fpA, fpB, fpC, fpD]
        = [{ seed := fpA, absorbed := [fpB, fpC] }, { seed := fpD, absorbed := [] }]
    ∧ hammingDistance fpA.2 fpB.2 = 1 ∧ hammingDistance fpA.2 fpC.2 = 2
    ∧ hammingDistance fpA.2 fpD.2 = 10 := by
  refine ⟨fun c hc => buildDupClustersFuel_absorbed_le t l.length l c hc,
    buildDupClustersFuel_pairwise_far t l.length l (le_refl _),
    by decide, by decide, by decide, by decide⟩

theorem buildContextGroupsFuel_flatten_perm (tc : ℚ) :
    ∀ (fuel : Nat) (l : List Photo), l.length ≤ fuel →
      List.Perm (buildContextGroupsFuel tc fuel l).flatten l
  | _, [], _ => by simp [buildContextGroupsFuel]
  | 0, x :: rest, h => by simp at h
  | fuel + 1, x :: rest, h => by
      simp only [buildContextGroupsFuel, List.flatten, List.cons_append]
      have hlen :
          (rest.filter fun y =>
            !(decide (tc ≤ calculate_contextual_similarity x y))).length ≤ fuel := by
        have := rest.length_filter_le
          (fun y => !(decide (tc ≤ calculate_contextual_similarity x y)))
        simp at h
        omega
      have ih := buildContextGroupsFuel_flatten_perm tc fuel _ hlen
      exact List.Perm.cons x ((ih.append_left _).trans (List.filter_append_perm _ rest))

/-- C5.  Duplicate clustering and contextual grouping each partition their
input: the concatenation of all cluster member lists is a permutation of
the input (so every image lands in exactly one cluster), and every image
whose fingerprinting failed appears in the output of
filter_similar_images rather than being dropped. -/
theorem C5_clusters_partition (t : Nat) (hashed : List ImageFp) (failed : List String)
    (tc : ℚ) (photos : List Photo) :
    List.Perm ((buildDupClusters t hashed).map DupCluster.members).flatten hashed
    ∧ List.Perm (buildContextGroups tc photos).flatten photos
    ∧ ∀ p ∈ failed, p ∈ filter_similar_images t hashed failed := by
  refine ⟨buildDupClustersFuel_flatten_perm t hashed.length hashed (le_refl _),
    buildContextGroupsFuel_flatten_perm tc photos.length photos (le_refl _),
    fun p hp => List.mem_append_right _ hp⟩

theorem pyMax_foldl_mem (key : Photo → ℚ) (xs : List Photo) :
    ∀ x : Photo,
      xs.foldl (fun best y => if key best < key y then y else best) x ∈ x :: xs := by
  induction xs with
  | nil => intro x; simp
  | cons y ys ih =>
      intro x
      simp only [List.foldl]
      rcases List.mem_cons.mp (ih (if key x < key y then y else x)) with h | h
      · rw [h]
        split
        · simp
        · simp
      · simp [h]

theorem pyMaxBy_mem (key : Photo → ℚ) (l : List Photo) (h : l ≠ []) :
    ∃ p, pyMaxBy key l = some p ∧ p ∈ l := by
  match l with
  | [] => exact absurd rfl h
  | x :: xs => exact ⟨_, rfl, pyMax_foldl_mem key xs x⟩

theorem mostUnique_foldl_spec (g : List Photo) :
    ∀ (l : List Photo) (b0 : Photo) (low0 : ℚ),
      ∃ b low, l.foldl (mostUniqueStep g) (some (b0, low0)) = some (b, low)
        ∧ low ≤ low0
        ∧ (∀ q ∈ l, low ≤ avgSimToOthers g q)
        ∧ (low = avgSimToOthers g b ∨ (b = b0 ∧ low = low0))
        ∧ (b ∈ l ∨ b = b0) := by
  intro l
  induction l with
  | nil =>
      intro b0 low0
      exact ⟨b0, low0, rfl, le_refl _, by simp, Or.inr ⟨rfl, rfl⟩, Or.inr rfl⟩
  | cons y ys ih =>
      intro b0 low0
      simp only [List.foldl, mostUniqueStep]
      by_cases hlt : avgSimToOthers g y < low0
      · rw [if_pos hlt]
        obtain ⟨b, low, heq, hle, hall, hform, hmem⟩ := ih y (avgSimToOthers g y)
        refine ⟨b, low, heq, le_of_lt (lt_of_le_of_lt hle hlt), ?_, ?_, ?_⟩
        · intro q hq
          rcases List.mem_cons.mp hq with rfl | hq2
          · exact hle
          · exact hall q hq2
        · rcases hform with hf | ⟨rfl, rfl⟩
          · exact Or.inl hf
          · exact Or.inl rfl
        · rcases hmem with hm | rfl
          · exact Or.inl (List.mem_cons_of_mem _ hm)
          · exact Or.inl (List.mem_cons_self _ _)
      · rw [if_neg hlt]
        obtain ⟨b, low, heq, hle, hall, hform, hmem⟩ := ih b0 low0
        refine ⟨b, low, heq, hle, ?_, hform, ?_⟩
        · intro q hq
          rcases List.mem_cons.mp hq with rfl | hq2
          · exact le_trans hle (not_lt.mp hlt)
          · exact hall q hq2
        · rcases hmem with hm | rfl
          · exact Or.inl (List.mem_cons_of_mem _ hm)
          · exact Or.inr rfl

theorem mostUniquePick_spec (group : List Photo) (h : group ≠ []) :
    ∃ b, mostUniquePick group = some b ∧ b ∈ group
      ∧ ∀ q ∈ group, avgSimToOthers group b ≤ avgSimToOthers group q := by
  match group with
  | [] => exact absurd rfl h
  | x :: xs =>
      obtain ⟨b, low, heq, hle, hall, hform, hmem⟩ :=
        mostUnique_foldl_spec (x :: xs) xs x (avgSimToOthers (x :: xs) x)
      have hpick : mostUniquePick (x :: xs) = some b := by
        rw [mostUniquePick]
        simp only [List.foldl, mostUniqueStep]
        rw [heq]
      have hlow : low = avgSimToOthers (x :: xs) b := by
        rcases hform with hf | ⟨rfl, rfl⟩
        · exact hf
        · rfl
      refine ⟨b, hpick, ?_, ?_⟩
      · rcases hmem with hm | rfl
        · exact List.mem_cons_of_mem _ hm
        · exact List.mem_cons_self _ _
      · intro q hq
        rw [← hlow]
        rcases List.mem_cons.mp hq with rfl | hq2
        · exact hle
        · exact hall q hq2

theorem empty_toLower : "".toLower = "" := by
  rw [String.toLower, String.map_eq]
  rfl

theorem photos_distinct : photoLowScore ≠ photoHighScore := by
  simp [photoLowScore, photoHighScore]

theorem photos_sim :
    calculate_contextual_similarity photoLowScore photoHighScore = 0.25
    ∧ calculate_contextual_similarity photoHighScore photoLowScore = 0.25 := by
  constructor <;>
    simp [calculate_contextual_similarity, calculate_text_similarity,
      photoLowScore, photoHighScore, empty_toLower]

theorem photos_avg_low :
    avgSimToOthers [photoLowScore, photoHighScore] photoLowScore = 0.25 := by
  rw [avgSimToOthers]
  simp [photos_distinct, Ne.symm photos_distinct, photos_sim.1]

theorem photos_avg_high :
    avgSimToOthers [photoLowScore, photoHighScore] photoHighScore = 0.25 := by
  rw [avgSimToOthers]
  simp [photos_distinct, Ne.symm photos_distinct, photos_sim.2]

theorem photos_mostUnique :
    mostUniquePick [photoLowScore, photoHighScore] = some photoLowScore := by
  rw [mostUniquePick]
  simp only [List.foldl, mostUniqueStep, photos_avg_low, photos_avg_high]
  rw [if_neg (by norm_num)]

theorem photos_select :
    select_best_from_context_group "most_unique" [photoLowScore, photoHighScore]
      = some photoLowScore := by
  rw [select_best_from_context_group]
  rw [if_neg (by simp), if_pos rfl]
  exact photos_mostUnique

theorem photos_score_lt :
    get_composite_score photoLowScore < get_composite_score photoHighScore := by
  norm_num [get_composite_score, photoLowScore, photoHighScore]

/-- C9, counterexample.  Two photos agreeing only on category tie on
average pairwise similarity (0.25 each); the claim says the tie is broken
by composite_score, which would pick the second (score 9 versus 1), but
the most_unique scan uses a strict comparison and keeps the first
candidate, returning the lower-scoring photo. -/
theorem C9_counterexample :
    select_best_from_context_group "most_unique" [photoLowScore, photoHighScore]
      = some photoLowScore
    ∧ avgSimToOthers [photoLowScore, photoHighScore] photoLowScore
        = avgSimToOthers [photoLowScore, photoHighScore] photoHighScore
    ∧ get_composite_score photoLowScore < get_composite_score photoHighScore
    ∧ photoLowScore ≠ photoHighScore := by
  refine ⟨photos_select, by rw [photos_avg_low, photos_avg_high], photos_score_lt,
    photos_distinct⟩

/-- C9, amended.  The most_unique policy returns a member of the cluster
attaining the lowest average pairwise contextual similarity to the other
members; when several members tie on that average the earliest one in
group order wins — the tie is not broken by composite_score, as the
concrete tie shows. -/
theorem C9_most_unique_minimises_average_similarity (group : List Photo) (b : Photo)
    (h : mostUniquePick group = some b) :
    (b ∈ group ∧ ∀ q ∈ group, avgSimToOthers group b ≤ avgSimToOthers group q)
    ∧ select_best_from_context_group "most_unique" [photoLowScore, photoHighScore]
        = some photoLowScore
    ∧ get_composite_score photoLowScore < get_composite_score photoHighScore := by
  have hne : group ≠ [] := by
    intro heq
    rw [heq] at h
    simp [mostUniquePick] at h
  obtain ⟨b2, hpick, hmem, hmin⟩ := mostUniquePick_spec group hne
  rw [hpick] at h
  cases h
  exact ⟨⟨hmem, hmin⟩, photos_select, photos_score_lt⟩

/-- Witness for C9_most_unique_minimises_average_similarity at the
concrete two-photo tie. -/
theorem C9_witness :
    photoLowScore ∈ [photoLowScore, photoHighScore]
      ∧ ∀ q ∈ [photoLowScore, photoHighScore],
          avgSimToOthers [photoLowScore, photoHighScore] photoLowScore
            ≤ avgSimToOthers [photoLowScore, photoHighScore] q :=
  (C9_most_unique_minimises_average_similarity [photoLowScore, photoHighScore]
    photoLowScore photos_mostUnique).1

/-- C10.  For every non-empty group and every strategy string, including
names matching no defined policy, select_best_from_context_group returns
some member of the group (it never fails), and an unrecognised strategy
falls through to the highest-composite-score default. -/
theorem C10_selection_total (strategy : String) (group : List Photo)
    (h : group ≠ []) :
    ∃ p, select_best_from_context_group strategy group = some p ∧ p ∈ group
      ∧ (strategy ∉ (["highest_score", "most_unique", "best_technical",
            "best_engagement"] : List String) →
          select_best_from_context_group strategy group
            = pyMaxBy get_composite_score group) := by
  rw [select_best_from_context_group]
  split_ifs with h1 h2 h3 h4
  · obtain ⟨p, hp, hm⟩ := pyMaxBy_mem get_composite_score group h
    exact ⟨p, hp, hm, fun hn => absurd (by simp [h1]) hn⟩
  · obtain ⟨p, hp, hm, _⟩ := mostUniquePick_spec group h
    exact ⟨p, hp, hm, fun hn => absurd (by simp [h2]) hn⟩
  · obtain ⟨p, hp, hm⟩ := pyMaxBy_mem (fun p => p.analysis.technical_score.getD 0) group h
    exact ⟨p, hp, hm, fun hn => absurd (by simp [h3]) hn⟩
  · obtain ⟨p, hp, hm⟩ := pyMaxBy_mem (fun p => p.analysis.engagement_score.getD 0) group h
    exact ⟨p, hp, hm, fun hn => absurd (by simp [h4]) hn⟩
  · obtain ⟨p, hp, hm⟩ := pyMaxBy_mem get_composite_score group h
    exact ⟨p, hp, hm, fun _ => rfl⟩

/-- Witness for C10_selection_total with an unrecognised strategy name on
a singleton group. -/
theorem C10_witness :
    ∃ p, select_best_from_context_group "no_such_strategy" [photoLowScore] = some p
      ∧ p ∈ [photoLowScore]
      ∧ ("no_such_strategy" ∉ (["highest_score", "most_unique", "best_technical",
            "best_engagement"] : List String) →
          select_best_from_context_group "no_such_strategy" [photoLowScore]
            = pyMaxBy get_composite_score [photoLowScore]) :=
  C10_selection_total "no_such_strategy" [photoLowScore] (by decide)

theorem is_open_true (cfg : BreakerConfig) (now : ℚ) (s : GovernorState)
    (hs : s.circuit = .opened)
    (h : ¬ cfg.recovery_timeout < now - s.last_failure_time) :
    is_circuit_open_at cfg now s = (true, s) := by
  obtain ⟨c, fc, lf, hoc, cd⟩ := s
  cases hs
  simp [is_circuit_open_at, h]

theorem is_open_false (cfg : BreakerConfig) (now : ℚ) (s : GovernorState)
    (hs : s.circuit = .opened)
    (h : cfg.recovery_timeout < now - s.last_failure_time) :
    is_circuit_open_at cfg now s
      = (false, { s with circuit := .halfOpen, half_open_calls := 0 }) := by
  obtain ⟨c, fc, lf, hoc, cd⟩ := s
  cases hs
  simp [is_circuit_open_at, h]

theorem record_success_closed (cfg : BreakerConfig) (s : GovernorState)
    (hs : s.circuit = .closed) : (record_success cfg s).circuit = .closed := by
  obtain ⟨c, fc, lf, hoc, cd⟩ := s
  cases hs
  simp only [record_success]
  split <;> rfl

theorem closed_stays_closed_on_successes (cfg : BreakerConfig) :
    ∀ (k : Nat) (s : GovernorState), s.circuit = .closed →
      (runReleases cfg 0 s (List.replicate k true)).circuit = .closed
  | 0, s, hs => hs
  | k + 1, s, hs => by
      rw [List.replicate_succ]
      show (runReleases cfg 0 (record_success cfg s) (List.replicate k true)).circuit
        = .closed
      exact closed_stays_closed_on_successes cfg k _ (record_success_closed cfg s hs)

theorem halfOpen_closes (cfg : BreakerConfig) :
    ∀ (k : Nat) (s : GovernorState), s.circuit = .halfOpen →
      cfg.half_open_max_calls ≤ s.half_open_calls + k → 0 < k →
      (runReleases cfg 0 s (List.replicate k true)).circuit = .closed
  | 0, _, _, _, hk => absurd hk (by omega)
  | k + 1, s, hs, hle, _ => by
      rw [List.replicate_succ]
      show (runReleases cfg 0 (record_success cfg s) (List.replicate k true)).circuit
        = .closed
      obtain ⟨c, fc, lf, hoc, cd⟩ := s
      cases hs
      dsimp only at hle
      simp only [record_success]
      by_cases hmax : cfg.half_open_max_calls ≤ hoc + 1
      · rw [if_pos hmax]
        exact closed_stays_closed_on_successes cfg k _ rfl
      · rw [if_neg hmax]
        refine halfOpen_closes cfg k _ rfl ?_ ?_
        · show cfg.half_open_max_calls ≤ hoc + 1 + k
          omega
        · omega

theorem acquireCircuit_opened_before (cfg : BreakerConfig) (s : GovernorState)
    (t1 ov : ℚ) (hs : s.circuit = .opened)
    (h1 : t1 - s.last_failure_time < cfg.recovery_timeout) (hov : 0 < ov) :
    acquireCircuit cfg t1 ov s
      = (.proceeded, { s with circuit := .halfOpen, half_open_calls := 0 }) := by
  have hn : ¬ cfg.recovery_timeout < t1 - s.last_failure_time := not_lt.mpr h1.le
  have hw : (0 : ℚ) < cfg.recovery_timeout - (t1 - s.last_failure_time) := by linarith
  have h2 : cfg.recovery_timeout
      < t1 + (cfg.recovery_timeout - (t1 - s.last_failure_time)) + ov
        - s.last_failure_time := by linarith
  rw [acquireCircuit]
  simp only [is_open_true cfg t1 s hs hn]
  rw [if_pos hw]
  simp only [is_open_false cfg _ s hs h2]
  simp

/-- C6, counterexample.  With the default Llama configuration, after five
consecutive failures at time 0 the circuit is OPEN; an acquire at time 10,
well before the 30-second recovery timeout has elapsed, does not raise:
the code sleeps until the recovery timeout has passed (the sleep overshoot
here is 1) and then proceeds with the circuit in HALF_OPEN, contradicting
the claim that such a call raises a CircuitOpen error. -/
theorem llamaFive_lf : llamaStateAfterFiveFailures.last_failure_time = 0 := rfl

theorem llamaFive_before_recovery :
    (10 : ℚ) - llamaStateAfterFiveFailures.last_failure_time
      < llamaBreakerDefaults.recovery_timeout := by
  rw [llamaFive_lf]
  norm_num [llamaBreakerDefaults]

theorem C6_counterexample :
    llamaStateAfterFiveFailures.circuit = .opened
    ∧ (10 : ℚ) - llamaStateAfterFiveFailures.last_failure_time
        < llamaBreakerDefaults.recovery_timeout
    ∧ (acquireCircuit llamaBreakerDefaults 10 1 llamaStateAfterFiveFailures).1
        ≠ .raised
    ∧ (acquireCircuit llamaBreakerDefaults 10 1 llamaStateAfterFiveFailures).2.circuit
        = .halfOpen := by
  have key := acquireCircuit_opened_before llamaBreakerDefaults
    llamaStateAfterFiveFailures 10 1 rfl llamaFive_before_recovery (by norm_num)
  refine ⟨rfl, llamaFive_before_recovery, ?_, ?_⟩
  · rw [key]
    simp
  · rw [key]

/-- C6, amended.  After failure_threshold consecutive failures the
governor is OPEN; an acquire made before recovery_timeout has elapsed
since the last failure blocks (sleeps) until the timeout has passed and
then proceeds with the circuit transitioned to HALF_OPEN, rather than
raising; any circuit check strictly after the recovery timeout moves the
circuit to HALF_OPEN; and half_open_max_calls consecutive successes from a
fresh HALF_OPEN state return the circuit to CLOSED. -/
theorem C6_open_circuit_amended (cfg : BreakerConfig) (s : GovernorState)
    (t1 ov : ℚ) (hs : s.circuit = .opened)
    (h1 : t1 - s.last_failure_time < cfg.recovery_timeout) (hov : 0 < ov) :
    (acquireCircuit cfg t1 ov s).1 = .proceeded
    ∧ (acquireCircuit cfg t1 ov s).2.circuit = .halfOpen
    ∧ (∀ t : ℚ, cfg.recovery_timeout < t - s.last_failure_time →
        is_circuit_open_at cfg t s
          = (false, { s with circuit := .halfOpen, half_open_calls := 0 }))
    ∧ llamaStateAfterFiveFailures.circuit = .opened
    ∧ (∀ s2 : GovernorState, s2.circuit = .halfOpen → s2.half_open_calls = 0 →
        0 < cfg.half_open_max_calls →
        (runReleases cfg 0 s2 (List.replicate cfg.half_open_max_calls true)).circuit
          = .closed) := by
  have key := acquireCircuit_opened_before cfg s t1 ov hs h1 hov
  refine ⟨by rw [key], by rw [key], fun t ht => is_open_false cfg t s hs ht, rfl, ?_⟩
  intro s2 hs2 hc0 hmax
  exact halfOpen_closes cfg cfg.half_open_max_calls s2 hs2 (by omega) hmax

/-- Witness for C6_open_circuit_amended at the concrete post-failure
state, acquire time 10 and sleep overshoot 1. -/
theorem C6_witness :
    (acquireCircuit llamaBreakerDefaults 10 1 llamaStateAfterFiveFailures).1
      = AcquireOutcome.proceeded :=
  (C6_open_circuit_amended llamaBreakerDefaults llamaStateAfterFiveFailures 10 1 rfl
    llamaFive_before_recovery (by norm_num)).1

end Organizer
